import Mathlib

/-!
Formal model of the NIRF report table-extraction engine: the student
gender-ratio, placement, expenditure, median-salary and Ph.D. extractors,
shallowly embedded from the Python sources.  Raw tables are grids of
optional cell strings; numeric cell values are modelled as integers and
derived float quantities as rationals, with Python `round(x, 2)` modelled
as rounding half to even at two decimals.
-/

namespace Nirf

/-- Whitespace characters stripped by Python `str.strip()` (ASCII subset). -/
def isPySpace (c : Char) : Bool :=
  c = ' ' || c = '\t' || c = '\n' || c = '\r' || c = '\x0b' || c = '\x0c'

/-- Remove leading and trailing whitespace, as Python `str.strip()`. -/
def stripChars (cs : List Char) : List Char :=
  ((cs.dropWhile isPySpace).reverse.dropWhile isPySpace).reverse

/-- Numeric value of a decimal digit character. -/
def digitVal (c : Char) : Nat := c.toNat - '0'.toNat

/-- Value of a digit list read left to right (most significant first). -/
def digitsVal (cs : List Char) : Nat :=
  cs.foldl (fun a c => a * 10 + digitVal c) 0

/-- Continuation of the digit body accepted by Python `int()` after its
first digit: an underscore must be followed by a digit, and the body must
end in a digit.  `acc` is the value accumulated so far. -/
def intBody : Nat → List Char → Option Nat
  | acc, [] => some acc
  | acc, c :: cs =>
    if c.isDigit then intBody (acc * 10 + digitVal c) cs
    else if c = '_' then
      match cs with
      | [] => none
      | d :: rest => if d.isDigit then intBody (acc * 10 + digitVal d) rest else none
    else none

/-- Digit string (with optional internal underscores) accepted by Python
`int()`, together with its numeric value; the first character must be a
digit. -/
def intDigits : List Char → Option Nat
  | [] => none
  | c :: cs => if c.isDigit then intBody (digitVal c) cs else none

/-- Python `int(s)` on a character list: strip whitespace, optional sign,
then digits (underscores allowed between digits); `none` models a
`ValueError`. -/
def pyIntChars (cs0 : List Char) : Option Int :=
  match stripChars cs0 with
  | [] => none
  | c :: rest =>
    if c = '-' then (intDigits rest).map (fun n => -(n : Int))
    else if c = '+' then (intDigits rest).map (fun n => (n : Int))
    else (intDigits (c :: rest)).map (fun n => (n : Int))

/-- Python `int(s)` on a string. -/
def pyInt (s : String) : Option Int := pyIntChars s.data

/-- Python `s.replace(',', '')` at the character-list level. -/
def removeCommas (cs : List Char) : List Char := cs.filter (fun c => c ≠ ',')

/-- Count normalization shared by the student-ratio and placement
extractors: strip thousands separators, trim, and parse an integer;
`none` models the absent value (empty, bare dash, or non-numeric cell).
Source: `student_ratio_tab.py` lines 79-102. -/
def normCount (s : String) : Option Int :=
  if stripChars (removeCommas s.data) = [] then none
  else pyIntChars (stripChars (removeCommas s.data))

/-- Text before the first opening parenthesis, as Python `s.split('(')[0]`. -/
def beforeParen (cs : List Char) : List Char := cs.takeWhile (fun c => c ≠ '(')

/-- Currency normalization used by the expenditure extractor: an empty or
missing cell is absent; otherwise take the text before the first `(`,
strip it, drop every non-digit character and parse the remaining digits;
no remaining digit is absent.  Source: `expenditure_tab.py` lines 102-106. -/
def normCurrency (cell : Option String) : Option Nat :=
  match cell with
  | none => none
  | some s =>
    if s = "" then none
    else
      let v := stripChars (beforeParen s.data)
      intDigits (v.filter Char.isDigit)

/-- Round a rational to an integer, ties to even, as Python `round`. -/
def rh2e (q : ℚ) : ℤ :=
  if q - (⌊q⌋ : ℚ) < 1/2 then ⌊q⌋
  else if 1/2 < q - (⌊q⌋ : ℚ) then ⌊q⌋ + 1
  else if ⌊q⌋ % 2 = 0 then ⌊q⌋ else ⌊q⌋ + 1

/-- Python `round(x, 2)` modelled on rationals. -/
def pyRound2 (q : ℚ) : ℚ := ((rh2e (q * 100) : ℚ)) / 100

/-- The derived-ratio policy of the spec: `round(num / den * 100, 2)` when
the denominator is positive, exactly `0` otherwise. -/
def ratioOf (num den : ℤ) : ℚ :=
  if 0 < den then pyRound2 ((num : ℚ) / (den : ℚ) * 100) else 0

lemma intBody_cons (acc : Nat) (c : Char) (cs : List Char) :
    intBody acc (c :: cs) =
      if c.isDigit then intBody (acc * 10 + digitVal c) cs
      else if c = '_' then
        match cs with
        | [] => none
        | d :: rest => if d.isDigit then intBody (acc * 10 + digitVal d) rest else none
      else none := by
  rw [intBody.eq_def]

lemma intBody_digits (cs : List Char) (h : ∀ c ∈ cs, c.isDigit = true) :
    ∀ acc, intBody acc cs = some (cs.foldl (fun a c => a * 10 + digitVal c) acc) := by
  induction cs with
  | nil => intro acc; simp [intBody]
  | cons c cs ih =>
    intro acc
    have hc : c.isDigit = true := h c (List.mem_cons_self ..)
    have hrest : ∀ x ∈ cs, x.isDigit = true := fun x hx => h x (List.mem_cons_of_mem _ hx)
    rw [intBody_cons, if_pos hc, List.foldl_cons]
    exact ih hrest _

lemma intDigits_digits (cs : List Char) (hne : cs ≠ [])
    (h : ∀ c ∈ cs, c.isDigit = true) : intDigits cs = some (digitsVal cs) := by
  cases cs with
  | nil => exact absurd rfl hne
  | cons c cs =>
    have hc : c.isDigit = true := h c (List.mem_cons_self ..)
    have hrest : ∀ x ∈ cs, x.isDigit = true := fun x hx => h x (List.mem_cons_of_mem _ hx)
    simp only [intDigits, hc, if_true, digitsVal, List.foldl_cons]
    have := intBody_digits cs hrest (digitVal c)
    simpa [digitVal] using this

lemma isPySpace_of_digit {c : Char} (h : c.isDigit = true) : isPySpace c = false := by
  by_contra hcon
  have hsp : isPySpace c = true := by
    cases hb : isPySpace c
    · exact absurd hb hcon
    · rfl
  simp only [isPySpace, Bool.or_eq_true, decide_eq_true_eq] at hsp
  rcases hsp with ((((h1 | h1) | h1) | h1) | h1) | h1 <;> (subst h1; exact absurd h (by decide))

lemma stripChars_digits (cs : List Char) (h : ∀ c ∈ cs, c.isDigit = true) :
    stripChars cs = cs := by
  have h1 : cs.dropWhile isPySpace = cs := by
    cases cs with
    | nil => rfl
    | cons c cs =>
      simp [List.dropWhile, isPySpace_of_digit (h c (List.mem_cons_self ..))]
  have h2 : cs.reverse.dropWhile isPySpace = cs.reverse := by
    cases hrev : cs.reverse with
    | nil => rfl
    | cons c cs' =>
      have hc : c ∈ cs := by
        have : c ∈ cs.reverse := by rw [hrev]; exact List.mem_cons_self ..
        simpa using this
      simp [List.dropWhile, isPySpace_of_digit (h c hc)]
  simp [stripChars, h1, h2]

lemma pyIntChars_digits (cs : List Char) (hne : cs ≠ [])
    (h : ∀ c ∈ cs, c.isDigit = true) : pyIntChars cs = some ((digitsVal cs : Nat) : Int) := by
  cases cs with
  | nil => exact absurd rfl hne
  | cons c cs =>
    have hs := stripChars_digits (c :: cs) h
    have hc : c.isDigit = true := h c (List.mem_cons_self ..)
    have hminus : ¬ (c = '-') := by
      intro hcc; subst hcc; exact absurd hc (by decide)
    have hplus : ¬ (c = '+') := by
      intro hcc; subst hcc; exact absurd hc (by decide)
    simp only [pyIntChars, hs]
    simp only [if_neg hminus, if_neg hplus]
    rw [intDigits_digits (c :: cs) (by simp) h]
    rfl

/-- C3: every digits-with-thousands-separators cell (such as `"1,23,456"`)
normalizes to the integer formed by its digits (here `123456`); the cells
`""` and `"-"` normalize to absent; and the currency cell
`"₹1,234 (approx)"` is normalized by taking the text before the first
opening parenthesis and stripping non-digit characters, yielding `1234`. -/
theorem claim_c3_cell_normalization :
    (∀ s : String, (∀ c ∈ s.data, c.isDigit = true ∨ c = ',') →
      (∃ c ∈ s.data, c.isDigit = true) →
      normCount s = some ((digitsVal (s.data.filter Char.isDigit) : Nat) : Int)) ∧
    normCount "1,23,456" = some 123456 ∧
    normCount "" = none ∧
    normCount "-" = none ∧
    normCurrency (some "₹1,234 (approx)") = some 1234 := by
  refine ⟨?_, by decide, by decide, by decide, by decide⟩
  intro s hall hex
  have hfil : s.data.filter (fun c => c ≠ ',') = s.data.filter Char.isDigit := by
    apply List.filter_congr
    intro c hc
    rcases hall c hc with hd | hcomma
    · have hne : c ≠ ',' := by
        intro h0; subst h0; exact absurd hd (by decide)
      simp [hne, hd]
    · subst hcomma; decide
  have hdig : ∀ c ∈ s.data.filter Char.isDigit, c.isDigit = true := by
    intro c hc; exact (List.mem_filter.mp hc).2
  have hne : s.data.filter Char.isDigit ≠ [] := by
    obtain ⟨c, hc, hd⟩ := hex
    intro h0
    have hmem : c ∈ s.data.filter Char.isDigit := List.mem_filter.mpr ⟨hc, hd⟩
    rw [h0] at hmem
    exact absurd hmem (List.not_mem_nil c)
  unfold normCount removeCommas
  rw [hfil, stripChars_digits _ hdig, if_neg hne]
  exact pyIntChars_digits _ hne hdig

/-- Witness for C3: the universally quantified clause evaluated at the
concrete cell `"1,23,456"`. -/
theorem claim_c3_cell_normalization_witness :
    normCount "1,23,456" =
      some ((digitsVal (("1,23,456" : String).data.filter Char.isDigit) : Nat) : Int) :=
  claim_c3_cell_normalization.1 "1,23,456" (by decide) (by decide)

/-- Decimal digits of a natural number, most significant first, as Python
`str(int(number))` produces for non-negative input.  Written with explicit
fuel so that it evaluates by kernel reduction; `natDigits` supplies enough
fuel for any input. -/
def natDigitsAux : Nat → Nat → List Char
  | 0, _ => []
  | fuel + 1, n =>
    if n < 10 then [Nat.digitChar n]
    else natDigitsAux fuel (n / 10) ++ [Nat.digitChar (n % 10)]

/-- Decimal digit string of a natural number. -/
def natDigits (n : Nat) : List Char := natDigitsAux (n + 1) n

/-- The grouping loop of `format_indian_currency`: split the digits in
front of the last three into two-digit groups from the right, leftmost
remainder first (the Python `while len(rest) > 2` loop followed by
`reversed(parts)`).  Fueled for kernel evaluation; `rest.length` fuel is
always enough. -/
def indianPartsAux : Nat → List Char → List (List Char)
  | 0, _ => []
  | fuel + 1, rest =>
    if 2 < rest.length then
      indianPartsAux fuel (rest.take (rest.length - 2)) ++ [rest.drop (rest.length - 2)]
    else if rest = [] then [] else [rest]

/-- Two-digit grouping of the leading digits, leftmost group first. -/
def indianParts (rest : List Char) : List (List Char) := indianPartsAux rest.length rest

/-- The Python comma-join of the parts list, over character lists. -/
def intercalateComma : List (List Char) → List Char
  | [] => []
  | [p] => p
  | p :: q :: ps => p ++ ',' :: intercalateComma (q :: ps)

/-- The `format_indian_currency` function of `expenditure_tab.py`
(lines 8-23), for the non-negative integral values the repository feeds
it: `"₹ "` followed by the digits, with the last three digits as one group
and the remaining digits grouped in twos, groups separated by commas. -/
def format_indian_currency (n : Nat) : String :=
  let s := natDigits n
  if s.length ≤ 3 then String.mk ('₹' :: ' ' :: s)
  else
    String.mk ('₹' :: ' ' ::
      (intercalateComma (indianParts (s.take (s.length - 3))) ++
        ',' :: s.drop (s.length - 3)))

lemma natDigitsAux_irrel : ∀ f₁ f₂ n, n < f₁ → n < f₂ →
    natDigitsAux f₁ n = natDigitsAux f₂ n := by
  intro f₁
  induction f₁ with
  | zero => intro f₂ n h1; omega
  | succ f ih =>
    intro f₂ n h1 h2
    cases f₂ with
    | zero => omega
    | succ f' =>
      simp only [natDigitsAux]
      by_cases h10 : n < 10
      · simp [h10]
      · simp only [if_neg h10]
        have hdiv : n / 10 < n := Nat.div_lt_self (by omega) (by omega)
        rw [ih f' (n / 10) (by omega) (by omega)]

lemma natDigits_eq (n : Nat) :
    natDigits n =
      if n < 10 then [Nat.digitChar n]
      else natDigits (n / 10) ++ [Nat.digitChar (n % 10)] := by
  show natDigitsAux (n + 1) n = _
  simp only [natDigitsAux]
  by_cases h10 : n < 10
  · simp [h10]
  · simp only [if_neg h10]
    have hdiv : n / 10 < n := Nat.div_lt_self (by omega) (by omega)
    rw [natDigitsAux_irrel n (n / 10 + 1) (n / 10) (by omega) (by omega)]
    rfl

lemma digitChar_isDigit {m : Nat} (h : m < 10) : (Nat.digitChar m).isDigit = true := by
  interval_cases m <;> decide

lemma natDigits_all_digit (n : Nat) : ∀ c ∈ natDigits n, c.isDigit = true := by
  induction n using Nat.strong_induction_on with
  | _ n ih =>
    rw [natDigits_eq]
    by_cases h10 : n < 10
    · simp only [if_pos h10]
      intro c hc
      rw [List.mem_singleton] at hc
      subst hc
      exact digitChar_isDigit h10
    · simp only [if_neg h10]
      intro c hc
      rcases List.mem_append.mp hc with hmem | hmem
      · exact ih (n / 10) (Nat.div_lt_self (by omega) (by omega)) c hmem
      · rw [List.mem_singleton] at hmem
        subst hmem
        exact digitChar_isDigit (Nat.mod_lt _ (by omega))

lemma natDigits_ne_nil (n : Nat) : natDigits n ≠ [] := by
  rw [natDigits_eq]
  by_cases h10 : n < 10
  · simp [h10]
  · simp [h10]

lemma digitVal_digitChar {m : Nat} (h : m < 10) : digitVal (Nat.digitChar m) = m := by
  interval_cases m <;> decide

lemma digitsVal_append_single (a : List Char) (c : Char) :
    digitsVal (a ++ [c]) = digitsVal a * 10 + digitVal c := by
  simp [digitsVal, List.foldl_append]

lemma digitsVal_natDigits (n : Nat) : digitsVal (natDigits n) = n := by
  induction n using Nat.strong_induction_on with
  | _ n ih =>
    rw [natDigits_eq]
    by_cases h10 : n < 10
    · simp only [if_pos h10, digitsVal, List.foldl_cons, List.foldl_nil]
      simpa using digitVal_digitChar h10
    · simp only [if_neg h10]
      rw [digitsVal_append_single,
        ih (n / 10) (Nat.div_lt_self (by omega) (by omega)),
        digitVal_digitChar (Nat.mod_lt _ (by omega))]
      omega

lemma indianPartsAux_irrel : ∀ f₁ f₂ (rest : List Char), rest.length ≤ f₁ →
    rest.length ≤ f₂ → indianPartsAux f₁ rest = indianPartsAux f₂ rest := by
  intro f₁
  induction f₁ with
  | zero =>
    intro f₂ rest h1 _
    have hnil : rest = [] := List.eq_nil_of_length_eq_zero (by omega)
    subst hnil
    cases f₂ with
    | zero => rfl
    | succ f' => simp [indianPartsAux]
  | succ f ih =>
    intro f₂ rest h1 h2
    cases f₂ with
    | zero =>
      have hnil : rest = [] := List.eq_nil_of_length_eq_zero (by omega)
      subst hnil
      simp [indianPartsAux]
    | succ f' =>
      simp only [indianPartsAux]
      by_cases hlen : 2 < rest.length
      · rw [if_pos hlen, if_pos hlen,
          ih f' (rest.take (rest.length - 2))
            (by simp [List.length_take]; omega) (by simp [List.length_take]; omega)]
      · rw [if_neg hlen, if_neg hlen]

lemma indianParts_eq (rest : List Char) :
    indianParts rest =
      if 2 < rest.length then
        indianParts (rest.take (rest.length - 2)) ++ [rest.drop (rest.length - 2)]
      else if rest = [] then [] else [rest] := by
  show indianPartsAux rest.length rest = _
  by_cases hnil : rest = []
  · subst hnil
    simp [indianPartsAux]
  · have hlen : rest.length ≠ 0 := by simpa using hnil
    conv_lhs => rw [show rest.length = (rest.length - 1) + 1 from by omega]
    simp only [indianPartsAux]
    by_cases h2 : 2 < rest.length
    · rw [if_pos h2, if_pos h2]
      rw [indianPartsAux_irrel (rest.length - 1) ((rest.take (rest.length - 2)).length)
        (rest.take (rest.length - 2)) (by simp [List.length_take]; omega) le_rfl]
      rfl
    · rw [if_neg h2, if_neg h2]

lemma indianParts_join_bounded : ∀ (n : Nat) (rest : List Char), rest.length ≤ n →
    (indianParts rest).flatten = rest := by
  intro n
  induction n with
  | zero =>
    intro rest h
    have hnil : rest = [] := List.eq_nil_of_length_eq_zero (by omega)
    subst hnil
    rw [indianParts_eq]
    simp
  | succ n ih =>
    intro rest h
    rw [indianParts_eq]
    by_cases h2 : 2 < rest.length
    · rw [if_pos h2, List.flatten_append,
        ih (rest.take (rest.length - 2)) (by simp [List.length_take]; omega)]
      simp
    · rw [if_neg h2]
      by_cases hnil : rest = []
      · simp [hnil]
      · simp [hnil]

lemma indianParts_join (rest : List Char) : (indianParts rest).flatten = rest :=
  indianParts_join_bounded rest.length rest le_rfl

lemma indianParts_shape : ∀ (n : Nat) (rest : List Char), rest.length ≤ n → rest ≠ [] →
    ∃ g gs, indianParts rest = g :: gs ∧ (g.length = 1 ∨ g.length = 2) ∧
      ∀ p ∈ gs, p.length = 2 := by
  intro n
  induction n with
  | zero =>
    intro rest h hne
    exact absurd (List.eq_nil_of_length_eq_zero (by omega)) hne
  | succ n ih =>
    intro rest h hne
    rw [indianParts_eq]
    by_cases h2 : 2 < rest.length
    · rw [if_pos h2]
      obtain ⟨g, gs, hparts, hg, hgs⟩ :=
        ih (rest.take (rest.length - 2)) (by simp [List.length_take]; omega)
          (by
            intro h0
            have := congrArg List.length h0
            simp [List.length_take] at this
            omega)
      refine ⟨g, gs ++ [rest.drop (rest.length - 2)], by rw [hparts]; simp, hg, ?_⟩
      intro p hp
      rcases List.mem_append.mp hp with hp | hp
      · exact hgs p hp
      · rw [List.mem_singleton] at hp
        subst hp
        simp [List.length_drop]
        omega
    · rw [if_neg h2, if_neg hne]
      refine ⟨rest, [], rfl, ?_, by intro p hp; exact absurd hp (List.not_mem_nil p)⟩
      have hpos : 0 < rest.length := List.length_pos.mpr hne
      omega

lemma intercalateComma_cons2 (p q : List Char) (ps : List (List Char)) :
    intercalateComma (p :: q :: ps) = p ++ ',' :: intercalateComma (q :: ps) := rfl

lemma intercalateComma_append_single : ∀ (ps : List (List Char)) (q : List Char),
    ps ≠ [] → intercalateComma (ps ++ [q]) = intercalateComma ps ++ ',' :: q := by
  intro ps
  induction ps with
  | nil => intro q h; exact absurd rfl h
  | cons p ps ih =>
    intro q _
    cases ps with
    | nil => rfl
    | cons r rs =>
      have hstep := ih q (by simp)
      show intercalateComma (p :: ((r :: rs) ++ [q])) = _
      rw [show p :: ((r :: rs) ++ [q]) = p :: r :: (rs ++ [q]) from rfl,
        intercalateComma_cons2, intercalateComma_cons2]
      rw [show r :: (rs ++ [q]) = (r :: rs) ++ [q] from rfl, hstep]
      simp

lemma intercalateComma_filter : ∀ ps : List (List Char),
    (∀ p ∈ ps, ∀ c ∈ p, c ≠ ',') →
    (intercalateComma ps).filter (fun c => c ≠ ',') = ps.flatten := by
  intro ps
  induction ps with
  | nil => intro _; rfl
  | cons p ps ih =>
    intro h
    have hp : (p.filter (fun c => c ≠ ',')) = p := by
      rw [List.filter_eq_self]
      intro c hc
      simpa using h p (List.mem_cons_self ..) c hc
    cases ps with
    | nil =>
      show (intercalateComma [p]).filter _ = List.flatten [p]
      simpa [intercalateComma] using hp
    | cons q ps' =>
      rw [intercalateComma_cons2, List.filter_append, hp]
      have hrest : ∀ r ∈ q :: ps', ∀ c ∈ r, c ≠ ',' :=
        fun r hr => h r (List.mem_cons_of_mem _ hr)
      have : (',' :: intercalateComma (q :: ps')).filter (fun c => c ≠ ',') =
          (intercalateComma (q :: ps')).filter (fun c => c ≠ ',') := by
        simp [List.filter]
      rw [this, ih hrest]
      simp

/-- C9: for every non-negative integer `n`, `format_indian_currency n` is
the string `"₹ "` followed by the decimal digits of `n` grouped by commas
in the Indian pattern (a single group when `n` has at most three digits;
otherwise a last group of three digits preceded by two-digit groups, the
leftmost group holding one or two digits), and removing the `"₹ "` prefix
and all commas from the result recovers exactly the decimal representation
of `n`. -/
theorem claim_c9_format_indian_currency (n : Nat) :
    ∃ groups : List (List Char),
      format_indian_currency n = String.mk ('₹' :: ' ' :: intercalateComma groups) ∧
      groups.flatten = natDigits n ∧
      digitsVal (natDigits n) = n ∧
      (intercalateComma groups).filter (fun c => c ≠ ',') = natDigits n ∧
      (∀ g ∈ groups, g ≠ [] ∧ ∀ c ∈ g, c.isDigit = true) ∧
      (if (natDigits n).length ≤ 3 then groups = [natDigits n]
       else ∃ g gs l3, groups = g :: (gs ++ [l3]) ∧ l3.length = 3 ∧
         (g.length = 1 ∨ g.length = 2) ∧ ∀ p ∈ gs, p.length = 2) := by
  have hdigits := natDigits_all_digit n
  have hnocomma : ∀ c ∈ natDigits n, c ≠ ',' := by
    intro c hc h0
    subst h0
    exact absurd (hdigits ',' hc) (by decide)
  by_cases h3 : (natDigits n).length ≤ 3
  · refine ⟨[natDigits n], ?_, by simp, digitsVal_natDigits n, ?_, ?_, ?_⟩
    · simp only [format_indian_currency]
      rw [if_pos h3]
      rfl
    · rw [intercalateComma_filter [natDigits n] ?_]
      · simp
      · intro p hp
        rw [List.mem_singleton] at hp
        subst hp
        exact hnocomma
    · intro g hg
      rw [List.mem_singleton] at hg
      subst hg
      exact ⟨natDigits_ne_nil n, hdigits⟩
    · rw [if_pos h3]
  · have hlen4 : 3 < (natDigits n).length := by omega
    have hrest_ne : (natDigits n).take ((natDigits n).length - 3) ≠ [] := by
      intro h0
      have := congrArg List.length h0
      simp [List.length_take] at this
      omega
    obtain ⟨g, gs, hparts, hg, hgs⟩ :=
      indianParts_shape ((natDigits n).take ((natDigits n).length - 3)).length
        ((natDigits n).take ((natDigits n).length - 3)) le_rfl hrest_ne
    have hpartsne : indianParts ((natDigits n).take ((natDigits n).length - 3)) ≠ [] := by
      rw [hparts]; simp
    have hflatten :
        (indianParts ((natDigits n).take ((natDigits n).length - 3)) ++
          [(natDigits n).drop ((natDigits n).length - 3)]).flatten = natDigits n := by
      rw [List.flatten_append, indianParts_join]
      simp [List.take_append_drop]
    refine ⟨indianParts ((natDigits n).take ((natDigits n).length - 3)) ++
      [(natDigits n).drop ((natDigits n).length - 3)], ?_, hflatten,
      digitsVal_natDigits n, ?_, ?_, ?_⟩
    · simp only [format_indian_currency]
      rw [if_neg (by omega)]
      rw [intercalateComma_append_single _ _ hpartsne]
    · rw [intercalateComma_filter _ ?_]
      · exact hflatten
      · intro p hp c hc
        exact hnocomma c (by rw [← hflatten]; exact List.mem_flatten.mpr ⟨p, hp, hc⟩)
    · intro g' hg'
      refine ⟨?_, ?_⟩
      · apply List.ne_nil_of_length_pos
        rcases List.mem_append.mp hg' with hp | hp
        · rw [hparts] at hp
          rcases List.mem_cons.mp hp with h0 | h0
          · subst h0; rcases hg with h1 | h1 <;> omega
          · have := hgs g' h0; omega
        · rw [List.mem_singleton] at hp
          subst hp
          rw [List.length_drop]
          omega
      · intro c hc
        exact hdigits c (by rw [← hflatten]; exact List.mem_flatten.mpr ⟨g', hg', hc⟩)
    · rw [if_neg (by omega)]
      refine ⟨g, gs, (natDigits n).drop ((natDigits n).length - 3),
        by rw [hparts]; simp, ?_, hg, hgs⟩
      rw [List.length_drop]
      omega

/-- Witness for C9: the theorem instantiated at the concrete input
`123456` (whose formatted form is `"₹ 1,23,456"`). -/
theorem claim_c9_format_indian_currency_witness :
    ∃ groups : List (List Char),
      format_indian_currency 123456 = String.mk ('₹' :: ' ' :: intercalateComma groups) ∧
      groups.flatten = natDigits 123456 ∧
      digitsVal (natDigits 123456) = 123456 ∧
      (intercalateComma groups).filter (fun c => c ≠ ',') = natDigits 123456 ∧
      (∀ g ∈ groups, g ≠ [] ∧ ∀ c ∈ g, c.isDigit = true) ∧
      (if (natDigits 123456).length ≤ 3 then groups = [natDigits 123456]
       else ∃ g gs l3, groups = g :: (gs ++ [l3]) ∧ l3.length = 3 ∧
         (g.length = 1 ∨ g.length = 2) ∧ ∀ p ∈ gs, p.length = 2) :=
  claim_c9_format_indian_currency 123456

/-- A raw table cell as supplied by the document-parsing collaborator:
`none` models a Python `None` cell. -/
abbrev Cell := Option String

/-- A raw table: an ordered list of rows of optional cell strings. -/
abbrev RawTable := List (List Cell)

/-- Header-cell normalization
`str(cell).replace('\n', ' ') if cell else ''`: a `None` or empty cell
becomes `''`, otherwise embedded line breaks become spaces. -/
def normCell (c : Cell) : String :=
  match c with
  | none => ""
  | some s => String.mk (s.data.map (fun ch => if ch = '\n' then ' ' else ch))

/-- Python `s.startswith(p)` on character lists. -/
def startsWithChars : List Char → List Char → Bool
  | [], _ => true
  | _ :: _, [] => false
  | a :: ps, b :: ss => a = b && startsWithChars ps ss

/-- Classification test of the student-strength table
(`student_ratio_tab.py` line 52): the normalized header row must contain
all three signature column names; an empty table never matches (the
`if not table: continue` guard of line 44). -/
def srMatches (t : RawTable) : Bool :=
  match t with
  | [] => false
  | h :: _ =>
    let hd := h.map normCell
    ("No. of Male Students" ∈ hd && "No. of Female Students" ∈ hd &&
      "Total Students" ∈ hd)

/-- Program-name cleanup of `student_ratio_tab.py` line 73:
`program_name_raw.replace('\n', ' ').strip()`. -/
def srProgName (raw : String) : String :=
  String.mk (stripChars (raw.data.map (fun ch => if ch = '\n' then ' ' else ch)))

/-- `row[idx].replace(',', '').strip()` of `student_ratio_tab.py`
lines 79-80, at the character-list level. -/
def replCommaStrip (s : String) : List Char := stripChars (removeCommas s.data)

/-- The numeric-cell step of `student_ratio_tab.py` lines 79-87, with the
three outcomes the program distinguishes.  An out-of-range index raises
`IndexError`, caught by the row handler at line 99: the row is skipped
(`some none`).  A `None` cell raises `AttributeError` on `.replace`, which
`except (ValueError, TypeError, IndexError)` does not catch: the whole
extraction aborts (`none`).  Otherwise both cells are stripped of
separators and whitespace, must be non-empty, and are parsed — a
`ValueError` is caught and skips the row.  `some (some (t, f))` is a
parsed pair. -/
def srNums (row : List Cell) (tIdx fIdx : Nat) : Option (Option (Int × Int)) :=
  match row.get? tIdx with
  | none => some none
  | some none => none
  | some (some ts0) =>
    match row.get? fIdx with
    | none => some none
    | some none => none
    | some (some fs0) =>
      let ts := replCommaStrip ts0
      let fs := replCommaStrip fs0
      if ts ≠ [] ∧ fs ≠ [] then
        match pyIntChars ts, pyIntChars fs with
        | some t, some f => some (some (t, f))
        | _, _ => some none
      else some none

/-- The derived-percentage expression shared by `student_ratio_tab.py`
line 87 and `placement_data_tab.py` lines 86-87:
`round((num / den) * 100, 2) if den > 0 else 0`. -/
def codeRatioExpr (num den : ℤ) : ℚ :=
  if 0 < den then pyRound2 ((num : ℚ) / (den : ℚ) * 100) else 0

/-- One record of the student gender-ratio table. -/
structure SRRec where
  sNo : Nat
  collegeName : String
  collegeID : String
  program : String
  totalStudents : Int
  femaleStudents : Int
  femaleRatioPct : ℚ
deriving DecidableEq

/-- Per-row outcome of the student-ratio row loop
(`student_ratio_tab.py` lines 65-102): `none` models an error that no
inner handler catches — an `IndexError` on `row[0]` (line 66, outside
every inner handler) or an `AttributeError` from a `None` numeric cell
(lines 79-80) — which aborts the whole extraction; `some none` is a
silently skipped row, `some (some rec)` an emitted record. -/
def srStep (name id : String) (tIdx fIdx sNo : Nat) (row : List Cell) :
    Option (Option SRRec) :=
  match row with
  | [] => none
  | c0 :: _ =>
    match c0 with
    | none => some none
    | some praw =>
      if praw = "" ∨ stripChars praw.data = [] then some none
      else
        if startsWithChars ("UG [".data) (srProgName praw).data ||
            startsWithChars ("PG [".data) (srProgName praw).data then
          match srNums row tIdx fIdx with
          | some (some (t, f)) =>
            some (some { sNo := sNo
                         collegeName := name
                         collegeID := id
                         program := srProgName praw
                         totalStudents := t
                         femaleStudents := f
                         femaleRatioPct := codeRatioExpr f t })
          | some none => some none
          | none => none
        else some none

/-- The row loop of the student-ratio extractor, threading the running
serial number; a hard row error aborts the whole extraction (the outer
`except` of `student_ratio_tab.py` lines 106-108 then returns an empty
result). -/
def srGo (name id : String) (tIdx fIdx : Nat) :
    List (List Cell) → Nat → Except Unit (List SRRec)
  | [], _ => .ok []
  | row :: rest, sNo =>
    match srStep name id tIdx fIdx sNo row with
    | none => .error ()
    | some none => srGo name id tIdx fIdx rest sNo
    | some (some rec) =>
      match srGo name id tIdx fIdx rest (sNo + 1) with
      | .ok rs => .ok (rec :: rs)
      | .error e => .error e

/-- First matching table on one page (the inner `for table in tables`
loop with its `break`). -/
def findSRinTables (ts : List RawTable) : Option RawTable := ts.find? srMatches

/-- First matching table across the pages (the outer page loop with its
`if table_found: break`). -/
def findSRinPages : List (List RawTable) → Option RawTable
  | [] => none
  | pg :: pgs =>
    match findSRinTables pg with
    | some t => some t
    | none => findSRinPages pgs

/-- The student gender-ratio extractor of `student_ratio_tab.py`
(lines 32-110), taking the document identity recovered from the first
page as parameters: locate the first table whose header carries the
signature columns, resolve the column indices from the normalized header,
and walk its data rows; any hard row error yields the empty result. -/
def extract_student_ratio_data (name id : String) (pages : List (List RawTable)) :
    List SRRec :=
  match findSRinPages pages with
  | none => []
  | some t =>
    let hd := (t.headD []).map normCell
    match srGo name id (hd.indexOf "Total Students")
        (hd.indexOf "No. of Female Students") t.tail 1 with
    | .ok recs => recs
    | .error _ => []

/-- One record of the placement and higher-studies table. -/
structure PlacementRec where
  collegeName : String
  collegeCode : String
  programName : String
  graduationYear : Option String
  graduated : Int
  placed : Int
  placementPct : ℚ
  higherStudies : Int
  higherStudiesPct : ℚ
deriving DecidableEq

/-- Per-row record assembly of `placement_data_tab.py` lines 79-101, with
the program's three outcomes.  An out-of-range cell fetch (`IndexError`)
or a parse failure (`ValueError`) raises inside the row handler at
line 100, which skips the row (`some none`).  A `None` numeric cell
raises `AttributeError` on `.replace`, which
`except (ValueError, IndexError, TypeError)` does not catch: the whole
extraction aborts (`none`).  Otherwise one record is emitted with both
derived percentages (`some (some rec)`); the year cell is stored raw, so
a `None` year does not raise. -/
def plRecOfRow (name code prog : String) (gyIdx gIdx pIdx hIdx : Nat)
    (row : List Cell) : Option (Option PlacementRec) :=
  match row.get? gyIdx with
  | none => some none
  | some gy =>
    match row.get? gIdx with
    | none => some none
    | some none => none
    | some (some gstr) =>
      match pyIntChars (removeCommas gstr.data) with
      | none => some none
      | some g =>
        match row.get? pIdx with
        | none => some none
        | some none => none
        | some (some pstr) =>
          match pyIntChars (removeCommas pstr.data) with
          | none => some none
          | some p =>
            match row.get? hIdx with
            | none => some none
            | some none => none
            | some (some hstr) =>
              match pyIntChars (removeCommas hstr.data) with
              | none => some none
              | some h =>
                some (some { collegeName := name
                             collegeCode := code
                             programName := prog
                             graduationYear := gy
                             graduated := g
                             placed := p
                             placementPct := codeRatioExpr p g
                             higherStudies := h
                             higherStudiesPct := codeRatioExpr h g })

/-- The data-row loop of the placement extractor (`placement_data_tab.py`
lines 79-101) over the rows after the header, for one classified table,
at the error-carrying level: a row's uncaught `AttributeError` propagates
out of every loop to the document-level handler. -/
def plGo (name code prog : String) (gyIdx gIdx pIdx hIdx : Nat) :
    List (List Cell) → Except Unit (List PlacementRec)
  | [] => .ok []
  | row :: rest =>
    match plRecOfRow name code prog gyIdx gIdx pIdx hIdx row with
    | none => .error ()
    | some none => plGo name code prog gyIdx gIdx pIdx hIdx rest
    | some (some rec) =>
      match plGo name code prog gyIdx gIdx pIdx hIdx rest with
      | .ok rs => .ok (rec :: rs)
      | .error e => .error e

/-- The records the placement row loop contributes for one classified
table.  On the abort path the document-level handler of
`placement_data_tab.py` lines 112-114 discards everything and returns an
empty result, so the table contributes no records — the restriction of
that behavior to this table's scope. -/
def placementRecords (name code prog : String) (gyIdx gIdx pIdx hIdx : Nat)
    (rows : List (List Cell)) : List PlacementRec :=
  match plGo name code prog gyIdx gIdx pIdx hIdx rows with
  | .ok l => l
  | .error _ => []

lemma pyRound2_intCast (n : ℤ) : pyRound2 ((n : ℚ)) = (n : ℚ) := by
  have hcast : ((n : ℚ) * 100) = (((n * 100 : ℤ)) : ℚ) := by push_cast; ring
  unfold pyRound2 rh2e
  rw [hcast, Int.floor_intCast, sub_self]
  norm_num

lemma ratioOf_eq_int {num den k : ℤ} (hden : 0 < den)
    (hk : (num : ℚ) / (den : ℚ) * 100 = (k : ℚ)) : ratioOf num den = (k : ℚ) := by
  unfold ratioOf
  rw [if_pos hden, hk, pyRound2_intCast]

lemma codeRatioExpr_eq_ratioOf (num den : ℤ) : codeRatioExpr num den = ratioOf num den := rfl

lemma srStep_emit {name id : String} {tIdx fIdx sNo : Nat} {row : List Cell}
    {r : SRRec} (h : srStep name id tIdx fIdx sNo row = some (some r)) :
    r.femaleRatioPct = ratioOf r.femaleStudents r.totalStudents := by
  unfold srStep at h
  repeat' split at h
  all_goals first
    | (rw [Option.some_inj, Option.some_inj] at h
       subst h
       exact codeRatioExpr_eq_ratioOf _ _)
    | exact absurd h (by simp)

lemma srGo_ratio (name id : String) (tIdx fIdx : Nat) :
    ∀ (rows : List (List Cell)) (sNo : Nat) (l : List SRRec),
      srGo name id tIdx fIdx rows sNo = .ok l →
      ∀ r ∈ l, r.femaleRatioPct = ratioOf r.femaleStudents r.totalStudents := by
  intro rows
  induction rows with
  | nil =>
    intro sNo l h r hr
    simp only [srGo, Except.ok.injEq] at h
    subst h
    exact absurd hr (List.not_mem_nil r)
  | cons row rest ih =>
    intro sNo l h r hr
    simp only [srGo] at h
    rcases hstep : srStep name id tIdx fIdx sNo row with _ | orec
    · rw [hstep] at h
      exact absurd h (by simp)
    · rw [hstep] at h
      rcases orec with _ | rec
      · exact ih sNo l h r hr
      · rcases hrest : srGo name id tIdx fIdx rest (sNo + 1) with e | rs
        · rw [hrest] at h
          exact absurd h (by simp)
        · rw [hrest] at h
          simp only [Except.ok.injEq] at h
          subst h
          rcases List.mem_cons.mp hr with h0 | h0
          · subst h0
            exact srStep_emit hstep
          · exact ih (sNo + 1) rs hrest r h0

lemma plRecOfRow_ratio {name code prog : String} {gyIdx gIdx pIdx hIdx : Nat}
    {row : List Cell} {r : PlacementRec}
    (h : plRecOfRow name code prog gyIdx gIdx pIdx hIdx row = some (some r)) :
    r.placementPct = ratioOf r.placed r.graduated ∧
    r.higherStudiesPct = ratioOf r.higherStudies r.graduated := by
  unfold plRecOfRow at h
  repeat' split at h
  all_goals first
    | (rw [Option.some_inj, Option.some_inj] at h
       subst h
       exact ⟨codeRatioExpr_eq_ratioOf _ _, codeRatioExpr_eq_ratioOf _ _⟩)
    | exact absurd h (by simp)

lemma plGo_ratio (name code prog : String) (gyIdx gIdx pIdx hIdx : Nat) :
    ∀ (rows : List (List Cell)) (l : List PlacementRec),
      plGo name code prog gyIdx gIdx pIdx hIdx rows = .ok l →
      ∀ r ∈ l, r.placementPct = ratioOf r.placed r.graduated ∧
        r.higherStudiesPct = ratioOf r.higherStudies r.graduated := by
  intro rows
  induction rows with
  | nil =>
    intro l h r hr
    simp only [plGo, Except.ok.injEq] at h
    subst h
    exact absurd hr (List.not_mem_nil r)
  | cons row rest ih =>
    intro l h r hr
    simp only [plGo] at h
    rcases hrow : plRecOfRow name code prog gyIdx gIdx pIdx hIdx row with _ | orec
    · rw [hrow] at h
      exact absurd h (by simp)
    · rw [hrow] at h
      rcases orec with _ | rec
      · exact ih l h r hr
      · rcases hrest : plGo name code prog gyIdx gIdx pIdx hIdx rest with e | rs
        · rw [hrest] at h
          exact absurd h (by simp)
        · rw [hrest] at h
          simp only [Except.ok.injEq] at h
          subst h
          rcases List.mem_cons.mp hr with h0 | h0
          · subst h0
            exact plRecOfRow_ratio hrow
          · exact ih rs hrest r h0

/-- C1: on every record assembled by the student-ratio extractor, the
derived female-ratio field is `round(female / total * 100, 2)` when the
total is positive and exactly `0` when it is not; likewise for the two
derived percentage fields of every placement record.  A non-positive
denominator yields the zero value rather than an error (the extractors
are total functions in this model). -/
theorem claim_c1_ratio_policy :
    (∀ (name id : String) (pages : List (List RawTable))
      (r : SRRec), r ∈ extract_student_ratio_data name id pages →
        r.femaleRatioPct = ratioOf r.femaleStudents r.totalStudents) ∧
    (∀ (name code prog : String) (gyIdx gIdx pIdx hIdx : Nat)
      (rows : List (List Cell)) (r : PlacementRec),
      r ∈ placementRecords name code prog gyIdx gIdx pIdx hIdx rows →
        r.placementPct = ratioOf r.placed r.graduated ∧
        r.higherStudiesPct = ratioOf r.higherStudies r.graduated) := by
  constructor
  · intro name id pages r hr
    unfold extract_student_ratio_data at hr
    rcases hfind : findSRinPages pages with _ | t
    · rw [hfind] at hr
      exact absurd hr (List.not_mem_nil r)
    · rw [hfind] at hr
      simp only at hr
      rcases hgo : srGo name id (((t.headD []).map normCell).indexOf "Total Students")
          (((t.headD []).map normCell).indexOf "No. of Female Students") t.tail 1 with e | rs
      · rw [hgo] at hr
        exact absurd hr (List.not_mem_nil r)
      · rw [hgo] at hr
        exact srGo_ratio name id _ _ t.tail 1 rs hgo r hr
  · intro name code prog gyIdx gIdx pIdx hIdx rows r hr
    unfold placementRecords at hr
    rcases hgo : plGo name code prog gyIdx gIdx pIdx hIdx rows with e | l
    · rw [hgo] at hr
      exact absurd hr (List.not_mem_nil r)
    · rw [hgo] at hr
      exact plGo_ratio name code prog gyIdx gIdx pIdx hIdx rows l hgo r hr

/-- The student-strength table exactly as described by the spec scenario
for C2: its header lacks the `"No. of Male Students"` signature column. -/
def c2ClaimTable : RawTable :=
  [[some "Program", some "Total Students", some "No. of Female Students"],
   [some "UG [4 Years]", some "1000", some "450"]]

/-- A student-strength table the classifier accepts: all three signature
columns present, one UG data row with 1000 total and 450 female students. -/
def c2GoodTable : RawTable :=
  [[some "Program", some "Total Students", some "No. of Male Students",
    some "No. of Female Students"],
   [some "UG [4 Years]", some "1000", some "550", some "450"]]

/-- The record extracted from `c2GoodTable`. -/
def c2Record : SRRec :=
  { sNo := 1, collegeName := "Test College", collegeID := "IR-C-C-1",
    program := "UG [4 Years]", totalStudents := 1000, femaleStudents := 450,
    femaleRatioPct := ratioOf 450 1000 }

lemma c2_extract_eq :
    extract_student_ratio_data "Test College" "IR-C-C-1" [[c2GoodTable]] = [c2Record] := rfl

lemma ratioOf_450_1000 : ratioOf 450 1000 = 45 := by
  have h := @ratioOf_eq_int 450 1000 45 (by norm_num) (by push_cast; norm_num)
  simpa using h

/-- Counterexample for C2: on the table whose header is exactly
`["Program", "Total Students", "No. of Female Students"]` with data row
`["UG [4 Years]", "1000", "450"]`, the extractor returns no record at all
(the classifier additionally requires `"No. of Male Students"` in the
header, so this table is never matched), not one record with ratio 45.0. -/
theorem claim_c2_counterexample :
    extract_student_ratio_data "Test College" "IR-C-C-1" [[c2ClaimTable]] = [] := by
  decide

/-- C2 as amended: a table whose header also carries the
`"No. of Male Students"` signature column, with one data row
`["UG [4 Years]", "1000", "550", "450"]`, yields exactly one record whose
female ratio field is 45.0. -/
theorem claim_c2_amended :
    extract_student_ratio_data "Test College" "IR-C-C-1" [[c2GoodTable]] = [c2Record] ∧
    c2Record.femaleRatioPct = 45 ∧
    c2Record.program = "UG [4 Years]" ∧
    c2Record.totalStudents = 1000 ∧
    c2Record.femaleStudents = 450 :=
  ⟨c2_extract_eq, ratioOf_450_1000, rfl, rfl, rfl⟩

/-- Witness for C1: the policy applied to the concrete record produced by
`c2GoodTable` and to a concrete placement row. -/
def plRows : List (List Cell) := [[some "2022-23", some "100", some "50", some "10"]]

/-- The record assembled from the single row of `plRows`. -/
def plRecord : PlacementRec :=
  { collegeName := "Test College", collegeCode := "IR-C-C-1", programName := "UG-4",
    graduationYear := some "2022-23", graduated := 100, placed := 50,
    placementPct := ratioOf 50 100, higherStudies := 10,
    higherStudiesPct := ratioOf 10 100 }

lemma pl_extract_eq :
    placementRecords "Test College" "IR-C-C-1" "UG-4" 0 1 2 3 plRows = [plRecord] := rfl

/-- Witness for C1: both conjuncts applied at concrete extractions. -/
theorem claim_c1_ratio_policy_witness :
    (c2Record ∈ extract_student_ratio_data "Test College" "IR-C-C-1" [[c2GoodTable]] ∧
      c2Record.femaleRatioPct = ratioOf c2Record.femaleStudents c2Record.totalStudents) ∧
    (plRecord ∈ placementRecords "Test College" "IR-C-C-1" "UG-4" 0 1 2 3 plRows ∧
      plRecord.placementPct = ratioOf plRecord.placed plRecord.graduated ∧
      plRecord.higherStudiesPct = ratioOf plRecord.higherStudies plRecord.graduated) := by
  have hm1 : c2Record ∈ extract_student_ratio_data "Test College" "IR-C-C-1" [[c2GoodTable]] := by
    rw [c2_extract_eq]
    exact List.mem_cons_self ..
  have hm2 : plRecord ∈ placementRecords "Test College" "IR-C-C-1" "UG-4" 0 1 2 3 plRows := by
    rw [pl_extract_eq]
    exact List.mem_cons_self ..
  exact ⟨⟨hm1, claim_c1_ratio_policy.1 _ _ _ _ hm1⟩,
    ⟨hm2, claim_c1_ratio_policy.2 _ _ _ _ _ _ _ _ _ hm2⟩⟩

lemma find?_ignore (a b : List RawTable) (t : RawTable) (h : srMatches t = false) :
    (a ++ t :: b).find? srMatches = (a ++ b).find? srMatches := by
  induction a with
  | nil => simp [List.find?, h]
  | cons x a ih =>
    simp only [List.cons_append, List.find?]
    cases hx : srMatches x
    · simpa [hx] using ih
    · simp [hx]

lemma findSRinPages_ignore (pre post : List (List RawTable)) (a b : List RawTable)
    (t : RawTable) (h : srMatches t = false) :
    findSRinPages (pre ++ (a ++ t :: b) :: post) =
    findSRinPages (pre ++ (a ++ b) :: post) := by
  induction pre with
  | nil =>
    simp only [List.nil_append, findSRinPages, findSRinTables]
    rw [find?_ignore a b t h]
  | cons pg pre ih =>
    simp only [List.cons_append, findSRinPages]
    cases hpg : findSRinTables pg
    · simpa [hpg] using ih
    · simp [hpg]

/-- C5: a table occurrence whose header matches no configured signature is
transparent to the student-ratio extraction: removing it from any position
of any page leaves the extracted records unchanged (so it contributes no
records and raises no error), whatever the other tables contribute —
possibly nothing. -/
theorem claim_c5_unmatched_table_ignored (name id : String)
    (pre post : List (List RawTable)) (a b : List RawTable) (t : RawTable)
    (h : srMatches t = false) :
    extract_student_ratio_data name id (pre ++ (a ++ t :: b) :: post) =
    extract_student_ratio_data name id (pre ++ (a ++ b) :: post) := by
  unfold extract_student_ratio_data
  rw [findSRinPages_ignore pre post a b t h]

/-- Witness for C5: the spec-scenario table (which matches no signature)
inserted in front of a matching table changes nothing. -/
theorem claim_c5_unmatched_table_ignored_witness :
    srMatches c2ClaimTable = false ∧
    extract_student_ratio_data "Test College" "IR-C-C-1"
        ([] ++ ([] ++ c2ClaimTable :: [c2GoodTable]) :: []) =
      extract_student_ratio_data "Test College" "IR-C-C-1"
        ([] ++ ([] ++ [c2GoodTable]) :: []) :=
  ⟨by decide, claim_c5_unmatched_table_ignored "Test College" "IR-C-C-1"
    [] [] [] [c2GoodTable] c2ClaimTable (by decide)⟩

/-- A matched student-strength table whose single data row has an accepted
program label and a present total but a female cell that fails numeric
normalization (a bare dash). -/
def c8Table : RawTable :=
  [[some "Program", some "Total Students", some "No. of Male Students",
    some "No. of Female Students"],
   [some "UG [4 Years]", some "100", some "60", some "-"]]

/-- Counterexample for C8: on `c8Table` the claim demands that the row
still be emitted with the female field absent; the code instead skips the
whole row, extracting no record at all. -/
theorem claim_c8_counterexample :
    extract_student_ratio_data "Test College" "IR-C-C-1" [[c8Table]] = [] := by
  decide

lemma srStep_skip {name id : String} {tIdx fIdx sNo : Nat} {row : List Cell}
    {praw : String} (hhead : row.head? = some (some praw))
    (hfal : ¬ (praw = "" ∨ stripChars praw.data = []))
    (hacc : (startsWithChars ("UG [".data) (srProgName praw).data ||
      startsWithChars ("PG [".data) (srProgName praw).data) = true)
    (hnum : srNums row tIdx fIdx = some none) :
    srStep name id tIdx fIdx sNo row = some none := by
  cases row with
  | nil => simp at hhead
  | cons c0 rest =>
    have hc0 : c0 = some praw := by simpa using hhead
    subst hc0
    simp [srStep, hfal, hacc, hnum]

lemma srStep_err {name id : String} {tIdx fIdx sNo : Nat} {row : List Cell}
    {praw : String} (hhead : row.head? = some (some praw))
    (hfal : ¬ (praw = "" ∨ stripChars praw.data = []))
    (hacc : (startsWithChars ("UG [".data) (srProgName praw).data ||
      startsWithChars ("PG [".data) (srProgName praw).data) = true)
    (hnum : srNums row tIdx fIdx = none) :
    srStep name id tIdx fIdx sNo row = none := by
  cases row with
  | nil => simp at hhead
  | cons c0 rest =>
    have hc0 : c0 = some praw := by simpa using hhead
    subst hc0
    simp [srStep, hfal, hacc, hnum]

/-- C8 as amended: when a numeric cell of an accepted row fails
normalization as empty text, a bare dash or other non-numeric text (a
caught `ValueError`), or is out of range (a caught `IndexError`), the row
is skipped entirely — it contributes no record and the other rows'
records are exactly those extracted with the offending row removed — in
both the student-ratio and the placement row loops (first two conjuncts).
A missing (`None`) numeric cell behaves differently: `.replace` on `None`
raises an `AttributeError` that the row handlers do not catch, so the row
loop aborts and the extraction of the document yields an empty result
(last two conjuncts). -/
theorem claim_c8_amended :
    (∀ (name id : String) (tIdx fIdx : Nat) (a b : List (List Cell))
      (row : List Cell) (praw : String) (sNo : Nat),
      row.head? = some (some praw) →
      ¬ (praw = "" ∨ stripChars praw.data = []) →
      (startsWithChars ("UG [".data) (srProgName praw).data ||
        startsWithChars ("PG [".data) (srProgName praw).data) = true →
      srNums row tIdx fIdx = some none →
      srGo name id tIdx fIdx (a ++ row :: b) sNo = srGo name id tIdx fIdx (a ++ b) sNo) ∧
    (∀ (name code prog : String) (gyIdx gIdx pIdx hIdx : Nat)
      (a b : List (List Cell)) (row : List Cell),
      plRecOfRow name code prog gyIdx gIdx pIdx hIdx row = some none →
      placementRecords name code prog gyIdx gIdx pIdx hIdx (a ++ row :: b) =
        placementRecords name code prog gyIdx gIdx pIdx hIdx (a ++ b)) ∧
    (∀ (name id : String) (tIdx fIdx : Nat) (a b : List (List Cell))
      (row : List Cell) (praw : String) (sNo : Nat),
      row.head? = some (some praw) →
      ¬ (praw = "" ∨ stripChars praw.data = []) →
      (startsWithChars ("UG [".data) (srProgName praw).data ||
        startsWithChars ("PG [".data) (srProgName praw).data) = true →
      srNums row tIdx fIdx = none →
      srGo name id tIdx fIdx (a ++ row :: b) sNo = .error ()) ∧
    (∀ (name code prog : String) (gyIdx gIdx pIdx hIdx : Nat)
      (a b : List (List Cell)) (row : List Cell),
      plRecOfRow name code prog gyIdx gIdx pIdx hIdx row = none →
      plGo name code prog gyIdx gIdx pIdx hIdx (a ++ row :: b) = .error () ∧
      placementRecords name code prog gyIdx gIdx pIdx hIdx (a ++ row :: b) = []) := by
  refine ⟨?_, ?_, ?_, ?_⟩
  · intro name id tIdx fIdx a b row praw sNo hhead hfal hacc hnum
    induction a generalizing sNo with
    | nil =>
      simp only [List.nil_append, srGo]
      rw [srStep_skip hhead hfal hacc hnum]
    | cons x a ih =>
      simp only [List.cons_append, srGo, List.append_eq]
      simp only [ih]
  · intro name code prog gyIdx gIdx pIdx hIdx a b row h
    have hgo : ∀ a' : List (List Cell),
        plGo name code prog gyIdx gIdx pIdx hIdx (a' ++ row :: b) =
        plGo name code prog gyIdx gIdx pIdx hIdx (a' ++ b) := by
      intro a'
      induction a' with
      | nil =>
        simp only [List.nil_append, plGo]
        rw [h]
      | cons x a' ih =>
        simp only [List.cons_append, plGo, List.append_eq]
        simp only [ih]
    unfold placementRecords
    rw [hgo a]
  · intro name id tIdx fIdx a b row praw sNo hhead hfal hacc hnum
    induction a generalizing sNo with
    | nil =>
      simp only [List.nil_append, srGo]
      rw [srStep_err hhead hfal hacc hnum]
    | cons x a ih =>
      simp only [List.cons_append, srGo, List.append_eq]
      simp only [ih]
      rcases srStep name id tIdx fIdx sNo x with _ | (_ | rec) <;> rfl
  · intro name code prog gyIdx gIdx pIdx hIdx a b row h
    have hgo : ∀ a' : List (List Cell),
        plGo name code prog gyIdx gIdx pIdx hIdx (a' ++ row :: b) = .error () := by
      intro a'
      induction a' with
      | nil =>
        simp only [List.nil_append, plGo]
        rw [h]
      | cons x a' ih =>
        simp only [List.cons_append, plGo, List.append_eq]
        simp only [ih]
        rcases plRecOfRow name code prog gyIdx gIdx pIdx hIdx x with _ | (_ | rec) <;> rfl
    refine ⟨hgo a, ?_⟩
    unfold placementRecords
    rw [hgo a]

/-- A second, fully parsable student-strength row. -/
def c8OtherRow : List Cell := [some "PG [2 Years]", some "200", some "50"]

/-- A placement row whose graduated cell fails numeric normalization with
a caught error (a bare dash). -/
def c8BadPlRow : List Cell := [some "2022-23", some "-", some "50", some "10"]

/-- A student-strength row whose female cell is missing (`None`). -/
def c8NoneRow : List Cell := [some "UG [4 Years]", some "100", none]

/-- A placement row whose graduated cell is missing (`None`). -/
def c8NonePlRow : List Cell := [some "2022-23", none, some "50", some "10"]

/-- Witness for C8 (amended): concrete skipped rows in both row loops,
and concrete `None`-cell rows aborting both row loops. -/
theorem claim_c8_amended_witness :
    ((c8Table.tail.headD []).head? = some (some "UG [4 Years]") ∧
     srNums (c8Table.tail.headD []) 1 3 = some none ∧
     srGo "Test College" "IR-C-C-1" 1 3 ([] ++ (c8Table.tail.headD []) :: [c8OtherRow]) 1 =
       srGo "Test College" "IR-C-C-1" 1 3 ([] ++ [c8OtherRow]) 1) ∧
    (plRecOfRow "Test College" "IR-C-C-1" "UG-4" 0 1 2 3 c8BadPlRow = some none ∧
     placementRecords "Test College" "IR-C-C-1" "UG-4" 0 1 2 3 ([] ++ c8BadPlRow :: plRows) =
       placementRecords "Test College" "IR-C-C-1" "UG-4" 0 1 2 3 ([] ++ plRows)) ∧
    (srNums c8NoneRow 1 2 = none ∧
     srGo "Test College" "IR-C-C-1" 1 2 ([] ++ c8NoneRow :: [c8OtherRow]) 1 = .error ()) ∧
    (plRecOfRow "Test College" "IR-C-C-1" "UG-4" 0 1 2 3 c8NonePlRow = none ∧
     plGo "Test College" "IR-C-C-1" "UG-4" 0 1 2 3 ([] ++ c8NonePlRow :: plRows) = .error () ∧
     placementRecords "Test College" "IR-C-C-1" "UG-4" 0 1 2 3
       ([] ++ c8NonePlRow :: plRows) = []) :=
  ⟨⟨by decide, by decide,
    claim_c8_amended.1 "Test College" "IR-C-C-1" 1 3 [] [c8OtherRow]
      (c8Table.tail.headD []) "UG [4 Years]" 1 (by decide) (by decide) (by decide) (by decide)⟩,
   ⟨by decide,
    claim_c8_amended.2.1 "Test College" "IR-C-C-1" "UG-4" 0 1 2 3 [] plRows c8BadPlRow
      (by decide)⟩,
   ⟨by decide,
    claim_c8_amended.2.2.1 "Test College" "IR-C-C-1" 1 2 [] [c8OtherRow]
      c8NoneRow "UG [4 Years]" 1 (by decide) (by decide) (by decide) (by decide)⟩,
   ⟨by decide,
    (claim_c8_amended.2.2.2 "Test College" "IR-C-C-1" "UG-4" 0 1 2 3 [] plRows c8NonePlRow
      (by decide)).1,
    (claim_c8_amended.2.2.2 "Test College" "IR-C-C-1" "UG-4" 0 1 2 3 [] plRows c8NonePlRow
      (by decide)).2⟩⟩

/-- Strip a literal character sequence from the front of a list, or fail. -/
def dropLit : List Char → List Char → Option (List Char)
  | [], cs => some cs
  | _ :: _, [] => none
  | l :: ls, c :: cs => if c = l then dropLit ls cs else none

/-- Greedy `\d+`: one or more digits, with the remainder. -/
def takeDigits1 (cs : List Char) : Option (List Char × List Char) :=
  let ds := cs.takeWhile Char.isDigit
  if ds = [] then none else some (ds, cs.drop ds.length)

/-- Attempt to match one context-label pattern
`UG \[\d+ Years? Program\(s\)\]` or the `PG` variant at the start of the
list; on success returns the matched text and the remainder.  The
alternation and the optional `s` are deterministic here because a digit
run cannot be followed by both continuations at once. -/
def matchProg (cs : List Char) : Option (List Char × List Char) :=
  match cs with
  | [] => none
  | c :: rest =>
    if c = 'U' ∨ c = 'P' then
      match dropLit ("G [".data) rest with
      | none => none
      | some r1 =>
        match takeDigits1 r1 with
        | none => none
        | some (_, r2) =>
          match dropLit (" Year".data) r2 with
          | none => none
          | some r3 =>
            match dropLit (" Program(s)]".data)
                (match r3 with | 's' :: r4 => r4 | _ => r3) with
            | none => none
            | some r5 => some (cs.take (cs.length - r5.length), r5)
    else none

/-- All non-overlapping matches left to right, as `re.findall`; fueled for
kernel evaluation (each step consumes at least one character, so the
length of the text is always enough fuel). -/
def findAllAux : Nat → List Char → List (List Char)
  | 0, _ => []
  | _ + 1, [] => []
  | fuel + 1, c :: rest =>
    match matchProg (c :: rest) with
    | some (m, r) => m :: findAllAux fuel r
    | none => findAllAux fuel rest

/-- `re.findall` of the context-label pattern over a string. -/
def findAllProg (s : String) : List String :=
  (findAllAux s.data.length s.data).map String.mk

/-- The text of the page strictly above the given vertical offset: the
crop `page.crop((0, 0, page.width, table_y)).extract_text()` is modelled
as the page's lines with vertical position above the table, joined by
line breaks. -/
def textAbove (page : List (Nat × String)) (yPos : Nat) : String :=
  String.intercalate "\n" ((page.filter (fun l => l.1 < yPos)).map (fun l => l.2))

/-- `find_program_name_for_table` of `median_salary_tab.py` lines 16-34
(identically `university_exam_tab.py` lines 15-40 and
`placement_data_tab.py` lines 15-33): search the text above the table for
all context labels and return the last; otherwise, when the table starts
within 150 units of the page top and there is previous-page text, search
that and return the last; otherwise return `"Unknown Program"`. -/
def find_program_name_for_table (page : List (Nat × String)) (tableY : Nat)
    (prevText : String) : String :=
  let ms := if textAbove page tableY = "" then [] else findAllProg (textAbove page tableY)
  match ms.getLast? with
  | some m => m
  | none =>
    if tableY < 150 ∧ prevText ≠ "" then
      match (findAllProg prevText).getLast? with
      | some m => m
      | none => "Unknown Program"
    else "Unknown Program"

lemma findAllProg_empty : findAllProg "" = [] := rfl

/-- Counterexample for C4: with the context label occurring only below the
table's offset, but the table within the top-of-page threshold and a label
on the previous page, the resolver returns the previous page's label, not
"Unknown" — refuting the claim's first clause read on its own. -/
theorem claim_c4_counterexample :
    findAllProg (textAbove [(200, "UG [4 Years Program(s)]")] 100) = [] ∧
    findAllProg "UG [4 Years Program(s)]" ≠ [] ∧
    find_program_name_for_table [(200, "UG [4 Years Program(s)]")] 100
      "PG [2 Years Program(s)]" = "PG [2 Years Program(s)]" ∧
    "PG [2 Years Program(s)]" ≠ "Unknown Program" := by
  refine ⟨by decide, by decide, by decide, by decide⟩

/-- C4 as amended: (1) if no occurrence lies strictly above the offset and
the previous-page fallback does not fire (the table is not within the
top-of-page threshold with an occurrence in non-empty previous-page text),
the resolver returns "Unknown Program"; (2) if occurrences lie strictly
above, it returns the last one; (3) if none lie above but the offset is
within the threshold and the previous page's text contains occurrences, it
returns the last one from the previous page. -/
theorem claim_c4_amended :
    (∀ (page : List (Nat × String)) (tableY : Nat) (prevText : String),
      findAllProg (textAbove page tableY) = [] →
      ¬ (tableY < 150 ∧ prevText ≠ "" ∧ findAllProg prevText ≠ []) →
      find_program_name_for_table page tableY prevText = "Unknown Program") ∧
    (∀ (page : List (Nat × String)) (tableY : Nat) (prevText : String) (m : String),
      (findAllProg (textAbove page tableY)).getLast? = some m →
      find_program_name_for_table page tableY prevText = m) ∧
    (∀ (page : List (Nat × String)) (tableY : Nat) (prevText : String) (m : String),
      findAllProg (textAbove page tableY) = [] →
      tableY < 150 →
      (findAllProg prevText).getLast? = some m →
      find_program_name_for_table page tableY prevText = m) := by
  refine ⟨?_, ?_, ?_⟩
  · intro page tableY prevText h1 h2
    unfold find_program_name_for_table
    have hms : (if textAbove page tableY = "" then [] else findAllProg (textAbove page tableY)) = ([] : List String) := by
      by_cases he : textAbove page tableY = "" <;> simp [he, h1]
    rw [hms]
    simp only [List.getLast?_nil]
    by_cases hc : tableY < 150 ∧ prevText ≠ ""
    · have hprev : findAllProg prevText = [] := by
        by_contra hne
        exact h2 ⟨hc.1, hc.2, hne⟩
      rw [if_pos hc, hprev]
      rfl
    · rw [if_neg hc]
  · intro page tableY prevText m hlast
    have hne : findAllProg (textAbove page tableY) ≠ [] := by
      intro h0
      rw [h0] at hlast
      exact absurd hlast (by simp)
    have habove : textAbove page tableY ≠ "" := by
      intro h0
      rw [h0, findAllProg_empty] at hne
      exact hne rfl
    unfold find_program_name_for_table
    rw [if_neg habove]
    simp only [hlast]
  · intro page tableY prevText m h1 h150 hlast
    have hprevne : findAllProg prevText ≠ [] := by
      intro h0
      rw [h0] at hlast
      exact absurd hlast (by simp)
    have hptne : prevText ≠ "" := by
      intro h0
      rw [h0, findAllProg_empty] at hprevne
      exact hprevne rfl
    unfold find_program_name_for_table
    have hms : (if textAbove page tableY = "" then [] else findAllProg (textAbove page tableY)) = ([] : List String) := by
      by_cases he : textAbove page tableY = "" <;> simp [he, h1]
    rw [hms]
    simp only [List.getLast?_nil]
    rw [if_pos ⟨h150, hptne⟩, hlast]

/-- Witness for C4 (amended): the three clauses evaluated at concrete
pages, offsets and previous-page texts. -/
theorem claim_c4_amended_witness :
    find_program_name_for_table [(200, "UG [4 Years Program(s)]")] 100 "" =
      "Unknown Program" ∧
    find_program_name_for_table
      [(30, "PG [2 Years Program(s)]"), (60, "UG [4 Years Program(s)]")] 100 "" =
      "UG [4 Years Program(s)]" ∧
    find_program_name_for_table [] 100 "PG [2 Years Program(s)]" =
      "PG [2 Years Program(s)]" :=
  ⟨claim_c4_amended.1 [(200, "UG [4 Years Program(s)]")] 100 "" (by decide) (by decide),
   claim_c4_amended.2.1 [(30, "PG [2 Years Program(s)]"), (60, "UG [4 Years Program(s)]")]
     100 "" "UG [4 Years Program(s)]" (by decide),
   claim_c4_amended.2.2 [] 100 "PG [2 Years Program(s)]" "PG [2 Years Program(s)]"
     (by decide) (by decide) (by decide)⟩

/-- An expenditure dictionary (the `capital_exp` / `operational_exp`
accumulators of `extract_expenditure_data`): year key to accumulated
value; keys are unique as in a Python dict.  Values are natural numbers
because line 105 strips every non-digit character before parsing. -/
abbrev ExpDict := List (String × Nat)

/-- Python `d.get(year, 0)`. -/
def dictGet (d : ExpDict) (k : String) : Nat :=
  match d.lookup k with
  | some v => v
  | none => 0

/-- The key list of a dictionary. -/
def dictKeys (d : ExpDict) : List String := d.map (fun p => p.1)

/-- Lexicographic comparison of character lists by code point, the
ordering Python uses on strings. -/
def charsLe : List Char → List Char → Bool
  | [], _ => true
  | _ :: _, [] => false
  | x :: xs, y :: ys =>
    if x.toNat = y.toNat then charsLe xs ys else decide (x.toNat < y.toNat)

/-- `a` precedes `b` in a descending (reverse-chronological for year keys)
string sort. -/
def yearDescB (a b : String) : Bool := charsLe b.data a.data

lemma charsLe_total : ∀ a b, charsLe a b = true ∨ charsLe b a = true := by
  intro a
  induction a with
  | nil => intro b; left; rfl
  | cons x xs ih =>
    intro b
    cases b with
    | nil => right; rfl
    | cons y ys =>
      simp only [charsLe]
      by_cases hxy : x.toNat = y.toNat
      · rw [if_pos hxy, if_pos (hxy.symm)]
        exact ih ys
      · rw [if_neg hxy, if_neg (fun h => hxy h.symm)]
        rcases Nat.lt_or_ge x.toNat y.toNat with h | h
        · left; simpa using h
        · right; simp; omega

lemma charsLe_trans : ∀ a b c, charsLe a b = true → charsLe b c = true →
    charsLe a c = true := by
  intro a
  induction a with
  | nil => intro b c _ _; rfl
  | cons x xs ih =>
    intro b c hab hbc
    cases b with
    | nil => simp [charsLe] at hab
    | cons y ys =>
      cases c with
      | nil => simp [charsLe] at hbc
      | cons z zs =>
        simp only [charsLe] at hab hbc ⊢
        by_cases hxy : x.toNat = y.toNat
        · rw [if_pos hxy] at hab
          by_cases hyz : y.toNat = z.toNat
          · rw [if_pos hyz] at hbc
            rw [if_pos (hxy.trans hyz)]
            exact ih ys zs hab hbc
          · rw [if_neg hyz] at hbc
            rw [if_neg (by omega)]
            simp at hbc ⊢
            omega
        · rw [if_neg hxy] at hab
          simp at hab
          by_cases hyz : y.toNat = z.toNat
          · rw [if_neg (by omega)]
            simp
            omega
          · rw [if_neg hyz] at hbc
            simp at hbc
            rw [if_neg (by omega)]
            simp
            omega

instance : IsTotal String (fun a b => yearDescB a b = true) :=
  ⟨fun a b => (charsLe_total b.data a.data).elim Or.inl Or.inr⟩

instance : IsTrans String (fun a b => yearDescB a b = true) :=
  ⟨fun _ _ _ hab hbc => charsLe_trans _ _ _ hbc hab⟩

/-- `sorted(list(set(capital_exp.keys()) | set(operational_exp.keys())),
reverse=True)` of `expenditure_tab.py` line 111: the distinct year keys in
descending lexicographic order (Python compares strings by code point, as
`charsLe` does). -/
def allYears (cap op : ExpDict) : List String :=
  List.insertionSort (fun a b => yearDescB a b = true) ((dictKeys cap ++ dictKeys op).dedup)

/-- Python `int()` applied to an exact real value: truncation toward
zero. -/
def pyIntOfFloat (q : ℚ) : ℤ := if 0 ≤ q then ⌊q⌋ else -⌊-q⌋

/-- `np.mean` of a value list, as an exact rational. -/
def meanQ (vals : List Nat) : ℚ :=
  if vals = [] then 0 else (vals.sum : ℚ) / (vals.length : ℚ)

/-- `np.mean(list(d.values())) if d else 0` of lines 131-132. -/
def avgOf (d : ExpDict) : ℚ :=
  if d = [] then 0 else meanQ (d.map (fun p => p.2))

/-- One output row of the combined expenditure table; the blank `S.No` of
the synthetic row is modelled as `none`, formatted currency values as the
strings the code stores. -/
structure ExpRow where
  sNo : Option Nat
  collegeName : String
  collegeID : String
  academicYear : String
  capital : String
  operational : String
  total : String
deriving DecidableEq

/-- The combine-and-structure stage of `extract_expenditure_data`
(`expenditure_tab.py` lines 110-145): one row per distinct year of either
dictionary in reverse chronological order, then the synthetic
`"**Average**"` row with blank identifying fields.  `format_indian_currency`
receives the truncated (`int(...)`) non-negative averages via `Int.toNat`,
matching Python `int` truncation of the non-negative means. -/
def combineExpenditure (name id : String) (cap op : ExpDict) : List ExpRow :=
  if allYears cap op = [] then []
  else
    (List.enumFrom 1 (allYears cap op)).map (fun p =>
      { sNo := some p.1
        collegeName := name
        collegeID := id
        academicYear := p.2
        capital := format_indian_currency (dictGet cap p.2)
        operational := format_indian_currency (dictGet op p.2)
        total := format_indian_currency (dictGet cap p.2 + dictGet op p.2) }) ++
    [{ sNo := none
       collegeName := ""
       collegeID := ""
       academicYear := "**Average**"
       capital := format_indian_currency (pyIntOfFloat (avgOf cap)).toNat
       operational := format_indian_currency (pyIntOfFloat (avgOf op)).toNat
       total := format_indian_currency (pyIntOfFloat (avgOf cap + avgOf op)).toNat }]

/-- C6: in the combined expenditure output, capital and operational values
sharing a year key string are merged into one row per distinct year (the
row's values are the dictionary lookups for its own year), the year rows
are sorted in reverse (descending lexicographic, hence reverse
chronological) order with each distinct key appearing exactly once, and
exactly one synthetic Average row is appended after all year rows, with
blank serial number, college name and college id and the non-period label
`"**Average**"`. -/
theorem claim_c6_expenditure_merge (name id : String) (cap op : ExpDict)
    (h : allYears cap op ≠ []) :
    ∃ yearRows avgRow,
      combineExpenditure name id cap op = yearRows ++ [avgRow] ∧
      yearRows.map (fun r => r.academicYear) = allYears cap op ∧
      (allYears cap op).Nodup ∧
      List.Perm (allYears cap op) ((dictKeys cap ++ dictKeys op).dedup) ∧
      List.Sorted (fun a b : String => yearDescB a b = true) (yearRows.map (fun r => r.academicYear)) ∧
      (∀ r ∈ yearRows,
        r.capital = format_indian_currency (dictGet cap r.academicYear) ∧
        r.operational = format_indian_currency (dictGet op r.academicYear) ∧
        r.total = format_indian_currency
          (dictGet cap r.academicYear + dictGet op r.academicYear) ∧
        r.collegeName = name ∧ r.collegeID = id) ∧
      avgRow.sNo = none ∧ avgRow.collegeName = "" ∧ avgRow.collegeID = "" ∧
      avgRow.academicYear = "**Average**" := by
  have hperm : List.Perm (allYears cap op) ((dictKeys cap ++ dictKeys op).dedup) :=
    List.perm_insertionSort _ _
  have hmapyears :
      ((List.enumFrom 1 (allYears cap op)).map (fun p =>
        ({ sNo := some p.1
           collegeName := name
           collegeID := id
           academicYear := p.2
           capital := format_indian_currency (dictGet cap p.2)
           operational := format_indian_currency (dictGet op p.2)
           total := format_indian_currency (dictGet cap p.2 + dictGet op p.2) } : ExpRow))).map
        (fun r => r.academicYear) = allYears cap op := by
    rw [List.map_map]
    have : ((fun r => ExpRow.academicYear r) ∘ (fun p : Nat × String =>
        ({ sNo := some p.1
           collegeName := name
           collegeID := id
           academicYear := p.2
           capital := format_indian_currency (dictGet cap p.2)
           operational := format_indian_currency (dictGet op p.2)
           total := format_indian_currency (dictGet cap p.2 + dictGet op p.2) } : ExpRow))) =
        Prod.snd := rfl
    rw [this, List.enumFrom_map_snd]
  refine ⟨_, _, by unfold combineExpenditure; rw [if_neg h], hmapyears, ?_, hperm, ?_, ?_,
    rfl, rfl, rfl, rfl⟩
  · exact hperm.symm.nodup (List.nodup_dedup _)
  · rw [hmapyears]
    exact List.sorted_insertionSort _ _
  · intro r hr
    obtain ⟨p, _, hp⟩ := List.mem_map.mp hr
    subst hp
    exact ⟨rfl, rfl, rfl, rfl, rfl⟩

/-- Witness for C6: the structure theorem applied to concrete capital and
operational dictionaries with distinct year keys. -/
theorem claim_c6_expenditure_merge_witness :
    allYears [("2021-22", 100)] [("2022-23", 250)] ≠ [] ∧
    (∃ yearRows avgRow,
      combineExpenditure "Test College" "IR-C-C-1"
          [("2021-22", 100)] [("2022-23", 250)] = yearRows ++ [avgRow] ∧
      yearRows.map (fun r => r.academicYear) =
        allYears [("2021-22", 100)] [("2022-23", 250)] ∧
      (allYears [("2021-22", 100)] [("2022-23", 250)]).Nodup ∧
      List.Perm (allYears [("2021-22", 100)] [("2022-23", 250)])
        ((dictKeys [("2021-22", 100)] ++ dictKeys [("2022-23", 250)]).dedup) ∧
      List.Sorted (fun a b : String => yearDescB a b = true)
        (yearRows.map (fun r => r.academicYear)) ∧
      (∀ r ∈ yearRows,
        r.capital = format_indian_currency (dictGet [("2021-22", 100)] r.academicYear) ∧
        r.operational = format_indian_currency (dictGet [("2022-23", 250)] r.academicYear) ∧
        r.total = format_indian_currency
          (dictGet [("2021-22", 100)] r.academicYear +
            dictGet [("2022-23", 250)] r.academicYear) ∧
        r.collegeName = "Test College" ∧ r.collegeID = "IR-C-C-1") ∧
      avgRow.sNo = none ∧ avgRow.collegeName = "" ∧ avgRow.collegeID = "" ∧
      avgRow.academicYear = "**Average**") :=
  ⟨by decide, claim_c6_expenditure_merge "Test College" "IR-C-C-1"
    [("2021-22", 100)] [("2022-23", 250)] (by decide)⟩

lemma char_toNat_inj {x y : Char} (h : x.toNat = y.toNat) : x = y := by
  exact_mod_cast Char.ofNat_toNat x ▸ Char.ofNat_toNat y ▸ congrArg Char.ofNat h

lemma charsLe_antisymm : ∀ a b, charsLe a b = true → charsLe b a = true → a = b := by
  intro a
  induction a with
  | nil =>
    intro b h1 h2
    cases b with
    | nil => rfl
    | cons y ys => simp [charsLe] at h2
  | cons x xs ih =>
    intro b h1 h2
    cases b with
    | nil => simp [charsLe] at h1
    | cons y ys =>
      simp only [charsLe] at h1 h2
      by_cases hxy : x.toNat = y.toNat
      · rw [if_pos hxy] at h1
        rw [if_pos hxy.symm] at h2
        rw [char_toNat_inj hxy, ih ys h1 h2]
      · rw [if_neg hxy] at h1
        rw [if_neg (fun h => hxy h.symm)] at h2
        simp at h1 h2
        omega

/-- One assembled median-salary record (`median_salary_tab.py`
lines 83-89); the academic-year cell is kept raw and may be `None`. -/
structure MSRec where
  collegeName : String
  collegeCode : String
  programName : String
  academicYear : Option String
  medianSalary : Int
deriving DecidableEq

/-- One row of the post-processed median-salary table: the record plus the
per-program average column, `none` where pandas stores `NaN` (rendered
blank). -/
structure MSRow where
  base : MSRec
  avgMedianSalary : Option ℚ

/-- Descending comparison on the sort key `Academic Year` with missing
values last, as `sort_values(..., ascending=False)` places `NaN`. -/
def yearDescOpt : Option String → Option String → Bool
  | none, none => true
  | none, some _ => false
  | some _, none => true
  | some a, some b => charsLe b.data a.data

/-- `a` may precede `b` under
`sort_values(by=['ProgramName', 'Academic Year'], ascending=[True, False])`. -/
def msLe (a b : MSRec) : Bool :=
  if a.programName = b.programName then yearDescOpt a.academicYear b.academicYear
  else charsLe a.programName.data b.programName.data

lemma yearDescOpt_total : ∀ a b, yearDescOpt a b = true ∨ yearDescOpt b a = true := by
  intro a b
  cases a with
  | none =>
    cases b with
    | none => left; rfl
    | some y => right; rfl
  | some x =>
    cases b with
    | none => left; rfl
    | some y => exact (charsLe_total y.data x.data).elim Or.inl Or.inr

lemma yearDescOpt_trans : ∀ a b c, yearDescOpt a b = true → yearDescOpt b c = true →
    yearDescOpt a c = true := by
  intro a b c hab hbc
  cases a with
  | none =>
    cases b with
    | none =>
      cases c with
      | none => rfl
      | some z => exact hbc
    | some y => simp [yearDescOpt] at hab
  | some x =>
    cases c with
    | none => rfl
    | some z =>
      cases b with
      | none => simp [yearDescOpt] at hbc
      | some y => exact charsLe_trans z.data y.data x.data hbc hab

instance : IsTotal MSRec (fun a b => msLe a b = true) := by
  constructor
  intro a b
  unfold msLe
  by_cases hp : a.programName = b.programName
  · rw [if_pos hp, if_pos hp.symm]
    exact yearDescOpt_total _ _
  · rw [if_neg hp, if_neg (fun h => hp h.symm)]
    exact (charsLe_total _ _).elim Or.inl Or.inr

instance : IsTrans MSRec (fun a b => msLe a b = true) := by
  constructor
  intro a b c hab hbc
  unfold msLe at hab hbc ⊢
  by_cases hab' : a.programName = b.programName
  · rw [if_pos hab'] at hab
    by_cases hbc' : b.programName = c.programName
    · rw [if_pos hbc'] at hbc
      rw [if_pos (hab'.trans hbc')]
      exact yearDescOpt_trans _ _ _ hab hbc
    · rw [if_neg hbc'] at hbc
      rw [if_neg (hab' ▸ hbc'), hab']
      exact hbc
  · rw [if_neg hab'] at hab
    by_cases hbc' : b.programName = c.programName
    · rw [if_neg (hbc' ▸ hab'), ← hbc']
      exact hab
    · rw [if_neg hbc'] at hbc
      by_cases hac : a.programName = c.programName
      · exfalso
        rw [hac] at hab
        have hdata := charsLe_antisymm _ _ hbc hab
        exact hbc' (congrArg String.mk hdata)
      · rw [if_neg hac]
        exact charsLe_trans _ _ _ hab hbc

/-- Mean of the `Median Salary` values of one program group, as pandas
`groupby('ProgramName')['Median Salary'].transform('mean')` computes it. -/
def groupMean (recs : List MSRec) (p : String) : ℚ :=
  ((recs.filter (fun r => r.programName = p)).map (fun r => r.medianSalary)).sum /
    (((recs.filter (fun r => r.programName = p)).length : ℚ))

/-- The duplicate-masking pass (`median_salary_tab.py` lines 108-112):
walking the sorted rows with the set of already-seen program names, the
average column is kept on a program's first row and blanked on later
ones. -/
def attachAvg (all : List MSRec) : List MSRec → List String → List MSRow
  | [], _ => []
  | r :: rs, seen =>
    { base := r
      avgMedianSalary :=
        if r.programName ∈ seen then none else some (groupMean all r.programName) } ::
      attachAvg all rs (r.programName :: seen)

/-- The post-assembly stage of `extract_median_salary_data`
(`median_salary_tab.py` lines 98-119): compute the per-program average,
sort by program ascending then academic year descending, and blank the
average on every row whose program already appeared. -/
def medianSalaryPostprocess (recs : List MSRec) : List MSRow :=
  attachAvg recs (List.insertionSort (fun a b => msLe a b = true) recs) []

lemma attachAvg_length (all : List MSRec) :
    ∀ (l : List MSRec) (seen : List String), (attachAvg all l seen).length = l.length := by
  intro l
  induction l with
  | nil => intro seen; rfl
  | cons r rs ih => intro seen; simp [attachAvg, ih]

lemma attachAvg_base (all : List MSRec) :
    ∀ (l : List MSRec) (seen : List String),
      (attachAvg all l seen).map (fun row => row.base) = l := by
  intro l
  induction l with
  | nil => intro seen; rfl
  | cons r rs ih => intro seen; simp [attachAvg, ih]

lemma attachAvg_get (all : List MSRec) :
    ∀ (l : List MSRec) (seen : List String) (j : Nat) (hj : j < l.length)
      (hj' : j < (attachAvg all l seen).length),
      (attachAvg all l seen).get ⟨j, hj'⟩ =
        { base := l.get ⟨j, hj⟩
          avgMedianSalary :=
            if (l.get ⟨j, hj⟩).programName ∈ seen ∨
                (l.get ⟨j, hj⟩).programName ∈ (l.take j).map (fun r => r.programName)
            then none else some (groupMean all (l.get ⟨j, hj⟩).programName) } := by
  intro l
  induction l with
  | nil => intro seen j hj _; exact absurd hj (by simp)
  | cons r rs ih =>
    intro seen j hj hj'
    cases j with
    | zero => simp [attachAvg]
    | succ k =>
      have hk : k < rs.length := by simpa using hj
      have hk' : k < (attachAvg all rs (r.programName :: seen)).length := by
        rw [attachAvg_length]; exact hk
      have hstep : (attachAvg all (r :: rs) seen).get ⟨k + 1, hj'⟩ =
          (attachAvg all rs (r.programName :: seen)).get ⟨k, hk'⟩ := rfl
      rw [hstep, ih (r.programName :: seen) k hk hk']
      have hbase : ((r :: rs).get ⟨k + 1, hj⟩) = rs.get ⟨k, hk⟩ := rfl
      have hcond : ((rs.get ⟨k, hk⟩).programName ∈ (r.programName :: seen) ∨
          (rs.get ⟨k, hk⟩).programName ∈ (rs.take k).map (fun r => r.programName)) ↔
          ((rs.get ⟨k, hk⟩).programName ∈ seen ∨
          (rs.get ⟨k, hk⟩).programName ∈
            ((r :: rs).take (k + 1)).map (fun r => r.programName)) := by
        simp only [List.take_succ_cons, List.map_cons, List.mem_cons]
        tauto
      rw [hbase]
      congr 1
      rw [if_congr hcond rfl rfl]

lemma get_mem_take {α : Type} (l : List α) (i j : Nat) (hij : i < j) (hi : i < l.length) :
    l.get ⟨i, hi⟩ ∈ l.take j := by
  have h1 : i < (l.take j).length := by
    rw [List.length_take]
    omega
  have h2 : (l.take j).get ⟨i, h1⟩ = l.get ⟨i, hi⟩ := by
    simp [List.get_eq_getElem, List.getElem_take']
  rw [← h2]
  exact List.get_mem (l.take j) i h1

lemma take_get_exists {α : Type} (l : List α) (j : Nat) (x : α) (hx : x ∈ l.take j) :
    ∃ (i : Nat) (hi : i < l.length), i < j ∧ l.get ⟨i, hi⟩ = x := by
  obtain ⟨n, hgn⟩ := List.mem_iff_get.mp hx
  rcases n with ⟨i, hiT⟩
  have hmin : i < min j l.length := by
    rw [← List.length_take]
    exact hiT
  refine ⟨i, by omega, by omega, ?_⟩
  rw [← hgn]
  simp [List.get_eq_getElem, List.getElem_take']

/-- C7: after sorting the records by program (ascending) and academic year
(descending), the post-processing (a) keeps the underlying records — per-
period salary values included — exactly equal to the sorted input, in
sorted order, (b) blanks the average column on every row preceded by a row
of the same program, and (c) attaches the group mean to every row with no
earlier row of its program (the first row of each group). -/
theorem claim_c7_average_attachment (recs : List MSRec) :
    ((medianSalaryPostprocess recs).map (fun row => row.base) =
      List.insertionSort (fun a b => msLe a b = true) recs) ∧
    List.Sorted (fun a b => msLe a b = true)
      ((medianSalaryPostprocess recs).map (fun row => row.base)) ∧
    (∀ (i j : Nat) (hi : i < (medianSalaryPostprocess recs).length)
      (hj : j < (medianSalaryPostprocess recs).length), i < j →
      ((medianSalaryPostprocess recs).get ⟨i, hi⟩).base.programName =
        ((medianSalaryPostprocess recs).get ⟨j, hj⟩).base.programName →
      ((medianSalaryPostprocess recs).get ⟨j, hj⟩).avgMedianSalary = none) ∧
    (∀ (j : Nat) (hj : j < (medianSalaryPostprocess recs).length),
      (∀ (i : Nat) (hi : i < (medianSalaryPostprocess recs).length), i < j →
        ((medianSalaryPostprocess recs).get ⟨i, hi⟩).base.programName ≠
          ((medianSalaryPostprocess recs).get ⟨j, hj⟩).base.programName) →
      ((medianSalaryPostprocess recs).get ⟨j, hj⟩).avgMedianSalary =
        some (groupMean recs
          (((medianSalaryPostprocess recs).get ⟨j, hj⟩).base.programName))) := by
  unfold medianSalaryPostprocess
  have hbase := attachAvg_base recs (List.insertionSort (fun a b => msLe a b = true) recs) []
  have hlen := attachAvg_length recs (List.insertionSort (fun a b => msLe a b = true) recs) []
  refine ⟨hbase, ?_, ?_, ?_⟩
  · rw [hbase]
    exact List.sorted_insertionSort _ _
  · intro i j hi hj hij hprog
    have hjS : j < (List.insertionSort (fun a b => msLe a b = true) recs).length := by
      rw [← hlen]; exact hj
    have hiS : i < (List.insertionSort (fun a b => msLe a b = true) recs).length := by
      rw [← hlen]; exact hi
    rw [attachAvg_get recs _ [] j hjS hj]
    rw [attachAvg_get recs _ [] i hiS hi, attachAvg_get recs _ [] j hjS hj] at hprog
    simp only at hprog
    have hmem : ((List.insertionSort (fun a b => msLe a b = true) recs).get
        ⟨j, hjS⟩).programName ∈
        (((List.insertionSort (fun a b => msLe a b = true) recs).take j).map
          (fun r => r.programName)) := by
      rw [← hprog]
      exact List.mem_map.mpr ⟨_, get_mem_take _ i j hij hiS, rfl⟩
    rw [List.map_take] at hmem
    simp only [List.get_eq_getElem] at hmem
    simp [hmem]
  · intro j hj hnone
    have hjS : j < (List.insertionSort (fun a b => msLe a b = true) recs).length := by
      rw [← hlen]; exact hj
    rw [attachAvg_get recs _ [] j hjS hj]
    simp only
    rw [if_neg ?_]
    intro hcon
    rcases hcon with hcon | hcon
    · exact absurd hcon (List.not_mem_nil _)
    · obtain ⟨r', hr', hreq⟩ := List.mem_map.mp hcon
      obtain ⟨i, hiS, hij, hgi⟩ := take_get_exists _ j r' hr'
      have hiO : i < (attachAvg recs
          (List.insertionSort (fun a b => msLe a b = true) recs) []).length := by
        rw [hlen]; exact hiS
      apply hnone i hiO hij
      rw [attachAvg_get recs _ [] i hiS hiO, attachAvg_get recs _ [] j hjS hj]
      simp only
      rw [hgi]
      exact hreq

/-- Two concrete salary records of one program group. -/
def c7Recs : List MSRec :=
  [{ collegeName := "N", collegeCode := "C", programName := "UG-4",
     academicYear := some "2021-22", medianSalary := 100 },
   { collegeName := "N", collegeCode := "C", programName := "UG-4",
     academicYear := some "2022-23", medianSalary := 200 }]

/-- Witness for C7: on two records of one program, the sorted output keeps
both salary values, shows the group average on the first row only and
blanks it on the second. -/
theorem claim_c7_average_attachment_witness :
    ∃ (h0 : 0 < (medianSalaryPostprocess c7Recs).length)
      (h1 : 1 < (medianSalaryPostprocess c7Recs).length),
      (medianSalaryPostprocess c7Recs).map (fun row => row.base) =
        List.insertionSort (fun a b => msLe a b = true) c7Recs ∧
      ((medianSalaryPostprocess c7Recs).get ⟨1, h1⟩).avgMedianSalary = none ∧
      ((medianSalaryPostprocess c7Recs).get ⟨0, h0⟩).avgMedianSalary =
        some (groupMean c7Recs
          (((medianSalaryPostprocess c7Recs).get ⟨0, h0⟩).base.programName)) := by
  refine ⟨by decide, by decide, (claim_c7_average_attachment c7Recs).1, ?_, ?_⟩
  · exact (claim_c7_average_attachment c7Recs).2.2.1 0 1 (by decide) (by decide)
      (by omega) (by decide)
  · exact (claim_c7_average_attachment c7Recs).2.2.2 0 (by decide)
      (fun i hi hlt => absurd hlt (Nat.not_lt_zero i))

/-- The `full_time_grads` / `part_time_grads` accumulators of
`extract_phd_graduated_data`: year to parsed count. -/
abbrev PhdDict := List (String × Int)

/-- Python `d.get(year, 0)`. -/
def phdGet (d : PhdDict) (k : String) : Int :=
  match d.lookup k with
  | some v => v
  | none => 0

/-- One structured output row of the Ph.D. table: the row label, the
per-year values in display order, and the `Total` column. -/
structure PhdRow where
  programName : String
  yearVals : List (String × Int)
  total : Int
deriving DecidableEq

/-- `sorted(years, reverse=True)` of `phd_data_tab.py` line 78. -/
def phdSortedYears (years : List String) : List String :=
  List.insertionSort (fun a b => yearDescB a b = true) years

/-- The structuring stage of `extract_phd_graduated_data`
(`phd_data_tab.py` lines 73-99): with no year found the result is empty;
otherwise exactly the Full Time, Part Time and Total rows, each carrying
one value per sorted year and a `Total` column summing its own per-year
values, the Total row summing the other two per year. -/
def phdRows (ft pt : PhdDict) (years : List String) : List PhdRow :=
  if years = [] then []
  else
    [{ programName := "Ph.D. Graduated - Full Time"
       yearVals := (phdSortedYears years).map (fun y => (y, phdGet ft y))
       total := ((phdSortedYears years).map (fun y => phdGet ft y)).sum },
     { programName := "Ph.D. Graduated - Part Time"
       yearVals := (phdSortedYears years).map (fun y => (y, phdGet pt y))
       total := ((phdSortedYears years).map (fun y => phdGet pt y)).sum },
     { programName := "Ph.D. Graduated - Total"
       yearVals := (phdSortedYears years).map (fun y => (y, phdGet ft y + phdGet pt y))
       total := ((phdSortedYears years).map (fun y => phdGet ft y + phdGet pt y)).sum }]

lemma sum_map_add (f g : String → Int) : ∀ l : List String,
    (l.map (fun y => f y + g y)).sum = (l.map f).sum + (l.map g).sum := by
  intro l
  induction l with
  | nil => rfl
  | cons x xs ih =>
    simp only [List.map_cons, List.sum_cons, ih]
    ring

/-- C10: every non-empty structured Ph.D. table has exactly three rows
(Full Time, Part Time, Total); in each year column the Total row equals
Full Time plus Part Time, and each row's `Total` column equals the sum of
its own per-year values (hence the Total row's total is the sum of the
other two totals). -/
theorem claim_c10_phd_table_sums (ft pt : PhdDict) (years : List String)
    (h : years ≠ []) :
    (phdRows ft pt years).length = 3 ∧
    (phdRows ft pt years).map (fun r => r.programName) =
      ["Ph.D. Graduated - Full Time", "Ph.D. Graduated - Part Time",
        "Ph.D. Graduated - Total"] ∧
    (∃ ftRow ptRow totRow : PhdRow,
      phdRows ft pt years = [ftRow, ptRow, totRow] ∧
      ftRow.yearVals.length = (phdSortedYears years).length ∧
      ptRow.yearVals.length = (phdSortedYears years).length ∧
      totRow.yearVals.length = (phdSortedYears years).length ∧
      (∀ (i : Nat) (h1 : i < ftRow.yearVals.length) (h2 : i < ptRow.yearVals.length)
        (h3 : i < totRow.yearVals.length),
        (totRow.yearVals.get ⟨i, h3⟩).1 = (ftRow.yearVals.get ⟨i, h1⟩).1 ∧
        (totRow.yearVals.get ⟨i, h3⟩).1 = (ptRow.yearVals.get ⟨i, h2⟩).1 ∧
        (totRow.yearVals.get ⟨i, h3⟩).2 =
          (ftRow.yearVals.get ⟨i, h1⟩).2 + (ptRow.yearVals.get ⟨i, h2⟩).2) ∧
      ftRow.total = (ftRow.yearVals.map (fun p => p.2)).sum ∧
      ptRow.total = (ptRow.yearVals.map (fun p => p.2)).sum ∧
      totRow.total = (totRow.yearVals.map (fun p => p.2)).sum ∧
      totRow.total = ftRow.total + ptRow.total) := by
  unfold phdRows
  rw [if_neg h]
  refine ⟨rfl, rfl, _, _, _, rfl, by simp, by simp, by simp, ?_, ?_, ?_, ?_, ?_⟩
  · intro i h1 h2 h3
    simp [List.get_eq_getElem, List.getElem_map]
  · rw [List.map_map]
    rfl
  · rw [List.map_map]
    rfl
  · rw [List.map_map]
    rfl
  · exact sum_map_add (phdGet ft) (phdGet pt) (phdSortedYears years)

/-- Witness for C10: the theorem applied to concrete dictionaries and a
two-year header. -/
theorem claim_c10_phd_table_sums_witness :
    (["2020-21", "2021-22"] : List String) ≠ [] ∧
    ((phdRows [("2021-22", 3)] [("2021-22", 5)] ["2020-21", "2021-22"]).length = 3 ∧
     (phdRows [("2021-22", 3)] [("2021-22", 5)] ["2020-21", "2021-22"]).map
        (fun r => r.programName) =
      ["Ph.D. Graduated - Full Time", "Ph.D. Graduated - Part Time",
        "Ph.D. Graduated - Total"] ∧
     (∃ ftRow ptRow totRow : PhdRow,
      phdRows [("2021-22", 3)] [("2021-22", 5)] ["2020-21", "2021-22"] =
        [ftRow, ptRow, totRow] ∧
      ftRow.yearVals.length = (phdSortedYears ["2020-21", "2021-22"]).length ∧
      ptRow.yearVals.length = (phdSortedYears ["2020-21", "2021-22"]).length ∧
      totRow.yearVals.length = (phdSortedYears ["2020-21", "2021-22"]).length ∧
      (∀ (i : Nat) (h1 : i < ftRow.yearVals.length) (h2 : i < ptRow.yearVals.length)
        (h3 : i < totRow.yearVals.length),
        (totRow.yearVals.get ⟨i, h3⟩).1 = (ftRow.yearVals.get ⟨i, h1⟩).1 ∧
        (totRow.yearVals.get ⟨i, h3⟩).1 = (ptRow.yearVals.get ⟨i, h2⟩).1 ∧
        (totRow.yearVals.get ⟨i, h3⟩).2 =
          (ftRow.yearVals.get ⟨i, h1⟩).2 + (ptRow.yearVals.get ⟨i, h2⟩).2) ∧
      ftRow.total = (ftRow.yearVals.map (fun p => p.2)).sum ∧
      ptRow.total = (ptRow.yearVals.map (fun p => p.2)).sum ∧
      totRow.total = (totRow.yearVals.map (fun p => p.2)).sum ∧
      totRow.total = ftRow.total + ptRow.total)) :=
  ⟨by decide, claim_c10_phd_table_sums [("2021-22", 3)] [("2021-22", 5)]
    ["2020-21", "2021-22"] (by decide)⟩

end Nirf
